import Mathlib

/-!
Shallow embedding of the zod-to-mongoose schema translator
(src/index.ts, src/extension.ts, src/assertions) and proofs about it.

The translator walks a zod schema tree and produces a mongoose schema
definition.  Zod nodes are modelled by the inductive type ZField, whose
constructors correspond exactly to the classification tags the assertion
layer distinguishes (the zmAssert dispatch in parseField tests disjoint
__zm_type tags, so classification is a plain match here).  Side-channel
attributes that the extension staples onto nodes (__zm_ref, __zm_refPath,
__zm_unique, __zm_sparse) are carried as Option fields: none models a JS
undefined property.  Output descriptors are modelled by MField, one
constructor per builder output shape; an Option-valued member models a
key that the builder sets only conditionally (absent vs present).
-/

namespace ZodMongoose

/-- A runtime value that can appear as a (produced) default.  A zod
default producer is a zero-argument closure; the translator never calls
it, only forwards it, so a producer is identified with the value it
would produce.  vnull models the null-producing closure injected by the
nullable branch. -/
inductive MValue where
  | vnull
  | vbool (b : Bool)
  | vint (n : Int)
  | vstr (s : String)
  deriving DecidableEq, Repr

/-- The zm.EffectValidator record captured by the patched refine
(extension.ts): a predicate plus optional message.  The translator
treats the predicate opaquely, so it is modelled by an identifying
token. -/
structure EffectValidator where
  vid : Nat
  message : Option String
  deriving DecidableEq, Repr

/-- The effect sub-kind of a ZodEffects node (field._def.effect.type),
together with the __zm_validation metadata that the patched refine
attaches to refinement effects (none when the effect was built without
the extension in place). -/
inductive ZEffect where
  | refinement (validation : Option EffectValidator)
  | preprocess
  | transform
  deriving DecidableEq, Repr

/-- A zod schema node, restricted to the structure the translator
inspects.  Each constructor corresponds to one classification the
assertion layer can produce; unsupported stands for every node that
matches none of them (the catch-all kind) and carries the node's
runtime constructor tag.  objectId and uuid carry the __zm_ref,
__zm_refPath, __zm_unique and __zm_sparse side-channel attributes;
scalar kinds carry their constraint accessors and the __zm_unique /
__zm_sparse attributes. -/
inductive ZField where
  | objectId (ref refPath : Option String) (unique sparse : Option Bool)
  | uuid (ref refPath : Option String) (unique sparse : Option Bool)
  | object (shape : List (String × ZField))
  | number (minValue maxValue : Option Int) (unique sparse : Option Bool)
  | string (minLength maxLength : Option Nat) (unique sparse : Option Bool)
  | enum (values : List String)
  | nativeEnum (values : List String)
  | boolean
  | date (unique sparse : Option Bool)
  | array (element : ZField)
  | zdefault (innerType : ZField) (defaultValue : MValue)
  | optional (innerType : ZField)
  | nullable (innerType : ZField)
  | union (firstOption : ZField) (otherOptions : List ZField)
  | any
  | map (keySchema valueSchema : ZField)
  | record (keySchema valueSchema : ZField)
  | effect (eff : ZEffect) (schema : ZField)
  | unsupported (ctor : String)
  deriving Repr

/-- The runtime constructor tag of a node, as interpolated by the
template literal in the parseObject error message (the interpolation of
field.constructor mentions the class name of the node and nothing
else; in particular it never mentions the key under which the node sits
in its parent object). -/
def ctorName : ZField → String
  | .objectId _ _ _ _ => "ZodUnion"
  | .uuid _ _ _ _ => "ZodUnion"
  | .object _ => "ZodObject"
  | .number _ _ _ _ => "ZodNumber"
  | .string _ _ _ _ => "ZodString"
  | .enum _ => "ZodEnum"
  | .nativeEnum _ => "ZodNativeEnum"
  | .boolean => "ZodBoolean"
  | .date _ _ => "ZodDate"
  | .array _ => "ZodArray"
  | .zdefault _ _ => "ZodDefault"
  | .optional _ => "ZodOptional"
  | .nullable _ => "ZodNullable"
  | .union _ _ => "ZodUnion"
  | .any => "ZodAny"
  | .map _ _ => "ZodMap"
  | .record _ _ => "ZodRecord"
  | .effect _ _ => "ZodEffects"
  | .unsupported c => c

/-- A mongoose field descriptor (zm.mField) or nested schema object, one
constructor per builder output shape.  mSchema is the bare mapping
returned by parseObject when required is true (no explicit required
flag); mSubdocument is the wrapper it returns when required is false
(type plus required false).  An Option-valued member set to none models
a key the builder left undefined or never set. -/
inductive MField where
  | mNumber (required : Bool) (defv : Option MValue) (min max : Option Int)
      (unique sparse : Bool) (validate : Option EffectValidator)
  | mString (required : Bool) (defv : Option MValue) (minLength maxLength : Option Nat)
      (unique sparse : Bool) (enumVals : Option (List String))
      (validate : Option EffectValidator)
  | mBoolean (required : Bool) (defv : Option MValue)
  | mDate (required : Bool) (defv : Option MValue) (unique sparse : Bool)
      (validate : Option EffectValidator)
  | mObjectId (required : Bool) (unique sparse : Bool) (ref refPath : Option String)
  | mUUID (required : Bool) (unique sparse : Bool) (ref refPath : Option String)
  | mArray (required : Bool) (defv : Option MValue) (innerType : MField)
  | mMap (required : Bool) (defv : Option MValue) (ofField : MField)
  | mMixed (required : Bool) (defv : Option MValue)
  | mSchema (fields : List (String × MField))
  | mSubdocument (fields : List (String × MField))
  deriving Repr

/-- The explicit required flag of a descriptor: some b when the output
object carries a required member with value b, none when it carries no
required member at all (the bare nested mapping case). -/
def MField.requiredFlag : MField → Option Bool
  | .mNumber r _ _ _ _ _ _ => some r
  | .mString r _ _ _ _ _ _ _ => some r
  | .mBoolean r _ => some r
  | .mDate r _ _ _ _ => some r
  | .mObjectId r _ _ _ _ => some r
  | .mUUID r _ _ _ _ => some r
  | .mArray r _ _ => some r
  | .mMap r _ _ => some r
  | .mMixed r _ => some r
  | .mSchema _ => none
  | .mSubdocument _ => some false

/-- The default member of a descriptor: some d when the output object
carries a default member (whose value is d, itself none for undefined),
none when the builder takes no default at all (identifier builders and
object mappings). -/
def MField.defaultVal : MField → Option (Option MValue)
  | .mNumber _ d _ _ _ _ _ => some d
  | .mString _ d _ _ _ _ _ _ => some d
  | .mBoolean _ d => some d
  | .mDate _ d _ _ _ => some d
  | .mObjectId _ _ _ _ _ => none
  | .mUUID _ _ _ _ _ => none
  | .mArray _ d _ => some d
  | .mMap _ d _ => some d
  | .mMixed _ d => some d
  | .mSchema _ => none
  | .mSubdocument _ => none

/-- The validate member of a descriptor: some v when the builder
attached a validator, none otherwise (in particular always none for the
boolean builder, whose output shape has no validate key). -/
def MField.validateVal : MField → Option EffectValidator
  | .mNumber _ _ _ _ _ _ v => v
  | .mString _ _ _ _ _ _ _ v => v
  | .mDate _ _ _ _ v => v
  | _ => none

/-- JS truthiness of an optional string attribute, as used by the
conditional assignments `if (ref) output.ref = ref` in parseObjectId and
parseUUID: the member is set only when the string is present and
non-empty. -/
def jsStr : Option String → Option String
  | some s => if s = "" then none else some s
  | none => none

/-- Whether the string pat occurs as a contiguous substring of the given
character list (used to state what an error message does or does not
identify). -/
def strOccurs (pat : String) : List Char → Bool
  | [] => pat.data.isEmpty
  | c :: cs => List.isPrefixOf pat.data (c :: cs) || strOccurs pat cs

/-- Embedding of parseNumber (src/index.ts).  The two bounds stand for
field.minValue and field.maxValue (each undefined when the node carries
no such check). -/
def parseNumber (minValue maxValue : Option Int) (required : Bool)
    (defv : Option MValue) (unique : Bool) (validate : Option EffectValidator)
    (sparse : Bool) : MField :=
  .mNumber required defv minValue maxValue unique sparse validate

/-- Embedding of parseString (src/index.ts). -/
def parseString (minLength maxLength : Option Nat) (required : Bool)
    (defv : Option MValue) (unique : Bool) (validate : Option EffectValidator)
    (sparse : Bool) : MField :=
  .mString required defv minLength maxLength unique sparse none validate

/-- Embedding of parseEnum (src/index.ts): a string descriptor with an
explicit permitted-value list, unique and sparse hard-coded false, no
length bounds and no validator. -/
def parseEnum (values : List String) (required : Bool) (defv : Option MValue) :
    MField :=
  .mString required defv none none false false (some values) none

/-- Embedding of parseBoolean (src/index.ts): the output object has only
type, default and required members (no unique, sparse or validate). -/
def parseBoolean (required : Bool) (defv : Option MValue) : MField :=
  .mBoolean required defv

/-- Embedding of parseDate (src/index.ts). -/
def parseDate (required : Bool) (defv : Option MValue)
    (validate : Option EffectValidator) (unique sparse : Bool) : MField :=
  .mDate required defv unique sparse validate

/-- Embedding of parseObjectId (src/index.ts): ref and refPath are set
only when truthy. -/
def parseObjectId (required : Bool) (ref : Option String) (unique : Bool)
    (refPath : Option String) (sparse : Bool) : MField :=
  .mObjectId required unique sparse (jsStr ref) (jsStr refPath)

/-- Embedding of parseUUID (src/index.ts): ref and refPath are set only
when truthy. -/
def parseUUID (required : Bool) (ref : Option String) (unique : Bool)
    (refPath : Option String) (sparse : Bool) : MField :=
  .mUUID required unique sparse (jsStr ref) (jsStr refPath)

/-- Embedding of parseMixed (src/index.ts). -/
def parseMixed (required : Bool) (defv : Option MValue) : MField :=
  .mMixed required defv

mutual

/-- Embedding of parseField (src/index.ts).  Dispatch order follows the
source exactly.  A returned value of ok none models the source
returning null (unsupported field); an error models a thrown exception
from a nested parseObject, parseArray or parseMap call.  In the uuid
branch the source reads the node's __zm_unique attribute into the
sparse argument (index.ts line 126), which is embedded faithfully. -/
def parseField (field : ZField) (required : Bool) (defv : Option MValue)
    (refinement : Option EffectValidator) : Except String (Option MField) :=
  match field with
  | .objectId ref refPath unique sparse =>
      .ok (some (parseObjectId required ref (unique.getD false) refPath
        (sparse.getD false)))
  | .uuid ref refPath unique _sparse =>
      .ok (some (parseUUID required ref (unique.getD false) refPath
        (unique.getD false)))
  | .object shape => do
      let o ← parseObject shape required
      pure (some o)
  | .number minValue maxValue unique sparse =>
      .ok (some (parseNumber minValue maxValue required defv (unique.getD false)
        refinement (sparse.getD false)))
  | .string minLength maxLength unique sparse =>
      .ok (some (parseString minLength maxLength required defv (unique.getD false)
        refinement (sparse.getD false)))
  | .enum values => .ok (some (parseEnum values required defv))
  | .nativeEnum values => .ok (some (parseEnum values required defv))
  | .boolean => .ok (some (parseBoolean required defv))
  | .date unique sparse =>
      .ok (some (parseDate required defv refinement (unique.getD false)
        (sparse.getD false)))
  | .array element => do
      let a ← parseArray required element defv
      pure (some a)
  | .zdefault innerType defaultValue =>
      parseField innerType required (some defaultValue) none
  | .optional innerType => parseField innerType false none none
  | .nullable innerType =>
      parseField innerType false
        (some (match defv with | some d => d | none => .vnull)) none
  | .union firstOption _ => parseField firstOption true none none
  | .any => .ok (some (parseMixed required defv))
  | .map _ valueSchema => do
      let m ← parseMap required valueSchema defv
      pure (some m)
  | .record _ valueSchema => do
      let m ← parseMap required valueSchema defv
      pure (some m)
  | .effect eff schema =>
      match eff with
      | .refinement validation => parseField schema required defv validation
      | .preprocess => parseField schema required defv refinement
      | .transform => parseField schema required defv refinement
  | .unsupported _ => .ok none
termination_by (2 * sizeOf field, 0)

/-- Embedding of parseObject (src/index.ts), applied to the entries of
the object's shape in declaration order.  Returns the bare mapping when
required is true and the subdocument wrapper when required is false. -/
def parseObject (shape : List (String × ZField)) (required : Bool) :
    Except String MField := do
  let fields ← parseObjectEntries shape
  if required then pure (.mSchema fields) else pure (.mSubdocument fields)
termination_by (2 * sizeOf shape, 1)

/-- The entry loop of parseObject (src/index.ts): object children
recurse into parseObject with required true; every other child goes
through parseField, and a null result raises the unsupported-field
error, which aborts the whole translation. -/
def parseObjectEntries (shape : List (String × ZField)) :
    Except String (List (String × MField)) :=
  match shape with
  | [] => .ok []
  | (key, field) :: rest =>
    match field with
    | .object s => do
        let sub ← parseObject s true
        let tail ← parseObjectEntries rest
        pure ((key, sub) :: tail)
    | fld => do
        let f ← parseField fld true none none
        match f with
        | none => .error ("Unsupported field type: " ++ ctorName fld)
        | some f0 => do
            let tail ← parseObjectEntries rest
            pure ((key, f0) :: tail)
termination_by (2 * sizeOf shape, 0)

/-- Embedding of parseArray (src/index.ts): the element is translated
fresh (required true, no default, no validator). -/
def parseArray (required : Bool) (element : ZField) (defv : Option MValue) :
    Except String MField := do
  let innerType ← parseField element true none none
  match innerType with
  | none => .error "Unsupported array type"
  | some inner => pure (.mArray required defv inner)
termination_by (2 * sizeOf element, 1)

/-- Embedding of parseMap (src/index.ts): only the value schema is
translated (fresh, like an array element); the key schema is not
consulted. -/
def parseMap (required : Bool) (valueType : ZField) (defv : Option MValue) :
    Except String MField := do
  let pointer ← parseField valueType true none none
  match pointer with
  | none => .error "Unsupported map value type"
  | some p => pure (.mMap required defv p)
termination_by (2 * sizeOf valueType, 1)

end

/-- The value computed for one entry of the parseObject loop: object
children go through parseObject with required true, everything else
through parseField with the unsupported-field error raised on a null
result.  This packages one iteration of the source loop for reasoning;
parseObjectEntries is proved equal to folding it over the entries. -/
def parseEntryValue (field : ZField) : Except String MField :=
  match field with
  | .object s => parseObject s true
  | fld => do
      let f ← parseField fld true none none
      match f with
      | none => Except.error ("Unsupported field type: " ++ ctorName fld)
      | some f0 => pure f0

/-- True when the chain of modifier wrappers along the dispatch spine of
a node reaches its underlying kind without passing through a union
(whose branch restarts the translation context). -/
def noUnionSpine : ZField → Bool
  | .union _ _ => false
  | .optional innerType => noUnionSpine innerType
  | .nullable innerType => noUnionSpine innerType
  | .zdefault innerType _ => noUnionSpine innerType
  | .effect _ schema => noUnionSpine schema
  | _ => true

/-- True when the dispatch spine of a node carries no required-ness
modifier at all: no optional, no nullable and no union (has-default and
has-effect wrappers are allowed, as they forward the required context
unchanged). -/
def plainSpine : ZField → Bool
  | .optional _ => false
  | .nullable _ => false
  | .union _ _ => false
  | .zdefault innerType _ => plainSpine innerType
  | .effect _ schema => plainSpine schema
  | _ => true

/-- True when the dispatch spine of a node ends in a kind whose builder
receives the pending default (number, string, enum, native enum,
boolean, date, array, any, map, record), passing only through wrappers
that forward an already-collected default (nullable and effect).
Identifier and object kinds ignore the pending default, a union discards
the whole context, and a further optional wrapper clears it. -/
def acceptsDefault : ZField → Bool
  | .number _ _ _ _ => true
  | .string _ _ _ _ => true
  | .enum _ => true
  | .nativeEnum _ => true
  | .boolean => true
  | .date _ _ => true
  | .array _ => true
  | .any => true
  | .map _ _ => true
  | .record _ _ => true
  | .nullable innerType => acceptsDefault innerType
  | .effect _ schema => acceptsDefault schema
  | _ => false

section Lemmas

/-- parseObject is the entry loop followed by the required-dependent
wrapping: the bare mapping when required, the subdocument wrapper when
not. -/
theorem parseObject_eq (shape : List (String × ZField)) (required : Bool) :
    parseObject shape required = (parseObjectEntries shape).bind fun l =>
      .ok (if required then .mSchema l else .mSubdocument l) := by
  rcases h : parseObjectEntries shape with e | l <;>
    cases required <;>
    simp [parseObject, h, Bind.bind, Except.bind, Pure.pure, Except.pure]

/-- One step of the parseObject entry loop: the head entry's value is
computed first (raising the unsupported-field error if it is null), then
the remaining entries. -/
theorem parseObjectEntries_cons (key : String) (field : ZField)
    (rest : List (String × ZField)) :
    parseObjectEntries ((key, field) :: rest) =
      (parseEntryValue field).bind fun v =>
        (parseObjectEntries rest).bind fun tail => .ok ((key, v) :: tail) := by
  cases field <;>
    simp only [parseObjectEntries, parseEntryValue] <;>
    (try rfl) <;>
    (rcases hf : parseField _ true none none with e | f
     · simp [hf, Bind.bind, Except.bind, Pure.pure, Except.pure]
     · simp [hf, Bind.bind, Except.bind, Pure.pure, Except.pure]
       cases f <;> simp [Except.bind])

/-- Inversion for parseArray: success means the element translated to a
non-null descriptor that is wrapped as the array's inner type. -/
theorem parseArray_ok (required : Bool) (element : ZField)
    (defv : Option MValue) (m : MField)
    (h : parseArray required element defv = .ok m) :
    ∃ inner, parseField element true none none = .ok (some inner) ∧
      m = .mArray required defv inner := by
  rcases hf : parseField element true none none with e | f <;>
    simp only [parseArray, hf, Bind.bind, Except.bind] at h
  · exact absurd h (by simp)
  · cases f with
    | none => exact absurd h (by simp)
    | some inner =>
        simp only [Pure.pure, Except.pure, Except.ok.injEq] at h
        exact ⟨inner, rfl, h.symm⟩

/-- Inversion for parseMap: success means the value schema translated to
a non-null descriptor that becomes the map's of member. -/
theorem parseMap_ok (required : Bool) (valueType : ZField)
    (defv : Option MValue) (m : MField)
    (h : parseMap required valueType defv = .ok m) :
    ∃ p, parseField valueType true none none = .ok (some p) ∧
      m = .mMap required defv p := by
  rcases hf : parseField valueType true none none with e | f <;>
    simp only [parseMap, hf, Bind.bind, Except.bind] at h
  · exact absurd h (by simp)
  · cases f with
    | none => exact absurd h (by simp)
    | some p =>
        simp only [Pure.pure, Except.pure, Except.ok.injEq] at h
        exact ⟨p, rfl, h.symm⟩

/-- Inversion for parseObject with required false: success always
produces the subdocument wrapper. -/
theorem parseObject_false_ok (shape : List (String × ZField)) (o : MField)
    (h : parseObject shape false = .ok o) : ∃ l, o = .mSubdocument l := by
  rw [parseObject_eq] at h
  rcases he : parseObjectEntries shape with e | l <;> rw [he] at h <;>
    simp [Except.bind] at h
  exact ⟨l, h.symm⟩

/-- Inversion for parseObject with required true: success always
produces the bare mapping of the translated entries. -/
theorem parseObject_true_ok (shape : List (String × ZField)) (o : MField)
    (h : parseObject shape true = .ok o) :
    ∃ l, o = .mSchema l ∧ parseObjectEntries shape = .ok l := by
  rw [parseObject_eq] at h
  rcases he : parseObjectEntries shape with e | l <;> rw [he] at h <;>
    simp [Except.bind] at h
  exact ⟨l, h.symm, rfl⟩

/-- Once the required context has been relaxed to false, every
descriptor produced along a union-free dispatch spine carries required
false: all the leaf builders copy the incoming required argument, and
the optional, nullable, has-default and has-effect branches keep it
false. -/
theorem requiredFlag_false :
    ∀ (N : ZField) (d : Option MValue) (ref : Option EffectValidator) (f : MField),
      noUnionSpine N = true → parseField N false d ref = Except.ok (some f) →
      f.requiredFlag = some false
  | .objectId r rp u s, d, ref, f, _, hp => by
      simp only [parseField, Except.ok.injEq, Option.some.injEq] at hp
      rw [← hp]; rfl
  | .uuid r rp u s, d, ref, f, _, hp => by
      simp only [parseField, Except.ok.injEq, Option.some.injEq] at hp
      rw [← hp]; rfl
  | .object shape, d, ref, f, _, hp => by
      simp only [parseField] at hp
      rcases ho : parseObject shape false with e | o <;>
        simp only [ho, Bind.bind, Except.bind, Pure.pure, Except.pure,
          Except.ok.injEq, Option.some.injEq, reduceCtorEq] at hp
      obtain ⟨l, hl⟩ := parseObject_false_ok shape o ho
      rw [← hp, hl]; rfl
  | .number mn mx u s, d, ref, f, _, hp => by
      simp only [parseField, Except.ok.injEq, Option.some.injEq] at hp
      rw [← hp]; rfl
  | .string mn mx u s, d, ref, f, _, hp => by
      simp only [parseField, Except.ok.injEq, Option.some.injEq] at hp
      rw [← hp]; rfl
  | .enum vs, d, ref, f, _, hp => by
      simp only [parseField, Except.ok.injEq, Option.some.injEq] at hp
      rw [← hp]; rfl
  | .nativeEnum vs, d, ref, f, _, hp => by
      simp only [parseField, Except.ok.injEq, Option.some.injEq] at hp
      rw [← hp]; rfl
  | .boolean, d, ref, f, _, hp => by
      simp only [parseField, Except.ok.injEq, Option.some.injEq] at hp
      rw [← hp]; rfl
  | .date u s, d, ref, f, _, hp => by
      simp only [parseField, Except.ok.injEq, Option.some.injEq] at hp
      rw [← hp]; rfl
  | .array el, d, ref, f, _, hp => by
      simp only [parseField] at hp
      rcases ha : parseArray false el d with e | m <;>
        simp only [ha, Bind.bind, Except.bind, Pure.pure, Except.pure,
          Except.ok.injEq, Option.some.injEq, reduceCtorEq] at hp
      obtain ⟨inner, _, hm⟩ := parseArray_ok false el d m ha
      rw [← hp, hm]; rfl
  | .zdefault inner dv, d, ref, f, hs, hp => by
      simp only [parseField] at hp
      exact requiredFlag_false inner (some dv) none f
        (by simpa [noUnionSpine] using hs) hp
  | .optional inner, d, ref, f, hs, hp => by
      simp only [parseField] at hp
      exact requiredFlag_false inner none none f
        (by simpa [noUnionSpine] using hs) hp
  | .nullable inner, d, ref, f, hs, hp => by
      cases d with
      | none =>
          simp only [parseField] at hp
          exact requiredFlag_false inner (some .vnull) none f
            (by simpa [noUnionSpine] using hs) hp
      | some v =>
          simp only [parseField] at hp
          exact requiredFlag_false inner (some v) none f
            (by simpa [noUnionSpine] using hs) hp
  | .union fo os, d, ref, f, hs, hp => by
      simp [noUnionSpine] at hs
  | .any, d, ref, f, _, hp => by
      simp only [parseField, Except.ok.injEq, Option.some.injEq] at hp
      rw [← hp]; rfl
  | .map k v, d, ref, f, _, hp => by
      simp only [parseField] at hp
      rcases hm : parseMap false v d with e | m <;>
        simp only [hm, Bind.bind, Except.bind, Pure.pure, Except.pure,
          Except.ok.injEq, Option.some.injEq, reduceCtorEq] at hp
      obtain ⟨p, _, hmm⟩ := parseMap_ok false v d m hm
      rw [← hp, hmm]; rfl
  | .record k v, d, ref, f, _, hp => by
      simp only [parseField] at hp
      rcases hm : parseMap false v d with e | m <;>
        simp only [hm, Bind.bind, Except.bind, Pure.pure, Except.pure,
          Except.ok.injEq, Option.some.injEq, reduceCtorEq] at hp
      obtain ⟨p, _, hmm⟩ := parseMap_ok false v d m hm
      rw [← hp, hmm]; rfl
  | .effect e sc, d, ref, f, hs, hp => by
      cases e with
      | refinement val =>
          simp only [parseField] at hp
          exact requiredFlag_false sc d val f
            (by simpa [noUnionSpine] using hs) hp
      | preprocess =>
          simp only [parseField] at hp
          exact requiredFlag_false sc d ref f
            (by simpa [noUnionSpine] using hs) hp
      | transform =>
          simp only [parseField] at hp
          exact requiredFlag_false sc d ref f
            (by simpa [noUnionSpine] using hs) hp
  | .unsupported c, d, ref, f, _, hp => by
      simp [parseField] at hp

/-- Every descriptor parseField can produce carries an explicit required
flag, with a single exception: the bare mapping produced for a nested
object translated in required position. -/
theorem requiredFlag_explicit :
    ∀ (N : ZField) (req : Bool) (d : Option MValue)
      (ref : Option EffectValidator) (f : MField),
      parseField N req d ref = Except.ok (some f) →
      (∃ b, f.requiredFlag = some b) ∨ ∃ sub, f = .mSchema sub
  | .objectId r rp u s, req, d, ref, f, hp => by
      simp only [parseField, Except.ok.injEq, Option.some.injEq] at hp
      exact .inl ⟨req, by rw [← hp]; rfl⟩
  | .uuid r rp u s, req, d, ref, f, hp => by
      simp only [parseField, Except.ok.injEq, Option.some.injEq] at hp
      exact .inl ⟨req, by rw [← hp]; rfl⟩
  | .object shape, req, d, ref, f, hp => by
      simp only [parseField] at hp
      rcases ho : parseObject shape req with e | o <;>
        simp only [ho, Bind.bind, Except.bind, Pure.pure, Except.pure,
          Except.ok.injEq, Option.some.injEq, reduceCtorEq] at hp
      cases req with
      | true =>
          obtain ⟨l, hl, _⟩ := parseObject_true_ok shape o ho
          exact .inr ⟨l, by rw [← hp, hl]⟩
      | false =>
          obtain ⟨l, hl⟩ := parseObject_false_ok shape o ho
          exact .inl ⟨false, by rw [← hp, hl]; rfl⟩
  | .number mn mx u s, req, d, ref, f, hp => by
      simp only [parseField, Except.ok.injEq, Option.some.injEq] at hp
      exact .inl ⟨req, by rw [← hp]; rfl⟩
  | .string mn mx u s, req, d, ref, f, hp => by
      simp only [parseField, Except.ok.injEq, Option.some.injEq] at hp
      exact .inl ⟨req, by rw [← hp]; rfl⟩
  | .enum vs, req, d, ref, f, hp => by
      simp only [parseField, Except.ok.injEq, Option.some.injEq] at hp
      exact .inl ⟨req, by rw [← hp]; rfl⟩
  | .nativeEnum vs, req, d, ref, f, hp => by
      simp only [parseField, Except.ok.injEq, Option.some.injEq] at hp
      exact .inl ⟨req, by rw [← hp]; rfl⟩
  | .boolean, req, d, ref, f, hp => by
      simp only [parseField, Except.ok.injEq, Option.some.injEq] at hp
      exact .inl ⟨req, by rw [← hp]; rfl⟩
  | .date u s, req, d, ref, f, hp => by
      simp only [parseField, Except.ok.injEq, Option.some.injEq] at hp
      exact .inl ⟨req, by rw [← hp]; rfl⟩
  | .array el, req, d, ref, f, hp => by
      simp only [parseField] at hp
      rcases ha : parseArray req el d with e | m <;>
        simp only [ha, Bind.bind, Except.bind, Pure.pure, Except.pure,
          Except.ok.injEq, Option.some.injEq, reduceCtorEq] at hp
      obtain ⟨inner, _, hm⟩ := parseArray_ok req el d m ha
      exact .inl ⟨req, by rw [← hp, hm]; rfl⟩
  | .zdefault inner dv, req, d, ref, f, hp => by
      simp only [parseField] at hp
      exact requiredFlag_explicit inner req (some dv) none f hp
  | .optional inner, req, d, ref, f, hp => by
      simp only [parseField] at hp
      exact requiredFlag_explicit inner false none none f hp
  | .nullable inner, req, d, ref, f, hp => by
      cases d with
      | none =>
          simp only [parseField] at hp
          exact requiredFlag_explicit inner false (some .vnull) none f hp
      | some v =>
          simp only [parseField] at hp
          exact requiredFlag_explicit inner false (some v) none f hp
  | .union fo os, req, d, ref, f, hp => by
      simp only [parseField] at hp
      exact requiredFlag_explicit fo true none none f hp
  | .any, req, d, ref, f, hp => by
      simp only [parseField, Except.ok.injEq, Option.some.injEq] at hp
      exact .inl ⟨req, by rw [← hp]; rfl⟩
  | .map k v, req, d, ref, f, hp => by
      simp only [parseField] at hp
      rcases hm : parseMap req v d with e | m <;>
        simp only [hm, Bind.bind, Except.bind, Pure.pure, Except.pure,
          Except.ok.injEq, Option.some.injEq, reduceCtorEq] at hp
      obtain ⟨p, _, hmm⟩ := parseMap_ok req v d m hm
      exact .inl ⟨req, by rw [← hp, hmm]; rfl⟩
  | .record k v, req, d, ref, f, hp => by
      simp only [parseField] at hp
      rcases hm : parseMap req v d with e | m <;>
        simp only [hm, Bind.bind, Except.bind, Pure.pure, Except.pure,
          Except.ok.injEq, Option.some.injEq, reduceCtorEq] at hp
      obtain ⟨p, _, hmm⟩ := parseMap_ok req v d m hm
      exact .inl ⟨req, by rw [← hp, hmm]; rfl⟩
  | .effect e sc, req, d, ref, f, hp => by
      cases e with
      | refinement val =>
          simp only [parseField] at hp
          exact requiredFlag_explicit sc req d val f hp
      | preprocess =>
          simp only [parseField] at hp
          exact requiredFlag_explicit sc req d ref f hp
      | transform =>
          simp only [parseField] at hp
          exact requiredFlag_explicit sc req d ref f hp
  | .unsupported c, req, d, ref, f, hp => by
      simp [parseField] at hp

/-- On a spine with no optional, nullable or union wrapper, the
translation of a node in required position keeps required true: the
descriptor either carries required true explicitly or is the bare
nested-object mapping (which mongoose treats as an embedded document
declaration). -/
theorem requiredFlag_plain :
    ∀ (N : ZField) (d : Option MValue) (ref : Option EffectValidator) (f : MField),
      plainSpine N = true → parseField N true d ref = Except.ok (some f) →
      f.requiredFlag = some true ∨ ∃ sub, f = .mSchema sub
  | .objectId r rp u s, d, ref, f, _, hp => by
      simp only [parseField, Except.ok.injEq, Option.some.injEq] at hp
      exact .inl (by rw [← hp]; rfl)
  | .uuid r rp u s, d, ref, f, _, hp => by
      simp only [parseField, Except.ok.injEq, Option.some.injEq] at hp
      exact .inl (by rw [← hp]; rfl)
  | .object shape, d, ref, f, _, hp => by
      simp only [parseField] at hp
      rcases ho : parseObject shape true with e | o <;>
        simp only [ho, Bind.bind, Except.bind, Pure.pure, Except.pure,
          Except.ok.injEq, Option.some.injEq, reduceCtorEq] at hp
      obtain ⟨l, hl, _⟩ := parseObject_true_ok shape o ho
      exact .inr ⟨l, by rw [← hp, hl]⟩
  | .number mn mx u s, d, ref, f, _, hp => by
      simp only [parseField, Except.ok.injEq, Option.some.injEq] at hp
      exact .inl (by rw [← hp]; rfl)
  | .string mn mx u s, d, ref, f, _, hp => by
      simp only [parseField, Except.ok.injEq, Option.some.injEq] at hp
      exact .inl (by rw [← hp]; rfl)
  | .enum vs, d, ref, f, _, hp => by
      simp only [parseField, Except.ok.injEq, Option.some.injEq] at hp
      exact .inl (by rw [← hp]; rfl)
  | .nativeEnum vs, d, ref, f, _, hp => by
      simp only [parseField, Except.ok.injEq, Option.some.injEq] at hp
      exact .inl (by rw [← hp]; rfl)
  | .boolean, d, ref, f, _, hp => by
      simp only [parseField, Except.ok.injEq, Option.some.injEq] at hp
      exact .inl (by rw [← hp]; rfl)
  | .date u s, d, ref, f, _, hp => by
      simp only [parseField, Except.ok.injEq, Option.some.injEq] at hp
      exact .inl (by rw [← hp]; rfl)
  | .array el, d, ref, f, _, hp => by
      simp only [parseField] at hp
      rcases ha : parseArray true el d with e | m <;>
        simp only [ha, Bind.bind, Except.bind, Pure.pure, Except.pure,
          Except.ok.injEq, Option.some.injEq, reduceCtorEq] at hp
      obtain ⟨inner, _, hm⟩ := parseArray_ok true el d m ha
      exact .inl (by rw [← hp, hm]; rfl)
  | .zdefault inner dv, d, ref, f, hs, hp => by
      simp only [parseField] at hp
      exact requiredFlag_plain inner (some dv) none f
        (by simpa [plainSpine] using hs) hp
  | .optional inner, d, ref, f, hs, hp => by
      simp [plainSpine] at hs
  | .nullable inner, d, ref, f, hs, hp => by
      simp [plainSpine] at hs
  | .union fo os, d, ref, f, hs, hp => by
      simp [plainSpine] at hs
  | .any, d, ref, f, _, hp => by
      simp only [parseField, Except.ok.injEq, Option.some.injEq] at hp
      exact .inl (by rw [← hp]; rfl)
  | .map k v, d, ref, f, _, hp => by
      simp only [parseField] at hp
      rcases hm : parseMap true v d with e | m <;>
        simp only [hm, Bind.bind, Except.bind, Pure.pure, Except.pure,
          Except.ok.injEq, Option.some.injEq, reduceCtorEq] at hp
      obtain ⟨p, _, hmm⟩ := parseMap_ok true v d m hm
      exact .inl (by rw [← hp, hmm]; rfl)
  | .record k v, d, ref, f, _, hp => by
      simp only [parseField] at hp
      rcases hm : parseMap true v d with e | m <;>
        simp only [hm, Bind.bind, Except.bind, Pure.pure, Except.pure,
          Except.ok.injEq, Option.some.injEq, reduceCtorEq] at hp
      obtain ⟨p, _, hmm⟩ := parseMap_ok true v d m hm
      exact .inl (by rw [← hp, hmm]; rfl)
  | .effect e sc, d, ref, f, hs, hp => by
      cases e with
      | refinement val =>
          simp only [parseField] at hp
          exact requiredFlag_plain sc d val f
            (by simpa [plainSpine] using hs) hp
      | preprocess =>
          simp only [parseField] at hp
          exact requiredFlag_plain sc d ref f
            (by simpa [plainSpine] using hs) hp
      | transform =>
          simp only [parseField] at hp
          exact requiredFlag_plain sc d ref f
            (by simpa [plainSpine] using hs) hp
  | .unsupported c, d, ref, f, _, hp => by
      simp [parseField] at hp

/-- A pending default that has been collected survives every further
dispatch step along a default-accepting spine and reaches the builder:
the resulting descriptor carries exactly that default, and its required
flag is the incoming context unless a nullable step relaxed it. -/
theorem defaultVal_propagates :
    ∀ (N : ZField) (req : Bool) (dv : MValue) (ref : Option EffectValidator)
      (f : MField),
      acceptsDefault N = true → parseField N req (some dv) ref = Except.ok (some f) →
      f.defaultVal = some (some dv) ∧
        (f.requiredFlag = some req ∨ f.requiredFlag = some false)
  | .number mn mx u s, req, dv, ref, f, _, hp => by
      simp only [parseField, Except.ok.injEq, Option.some.injEq] at hp
      exact ⟨by rw [← hp]; rfl, .inl (by rw [← hp]; rfl)⟩
  | .string mn mx u s, req, dv, ref, f, _, hp => by
      simp only [parseField, Except.ok.injEq, Option.some.injEq] at hp
      exact ⟨by rw [← hp]; rfl, .inl (by rw [← hp]; rfl)⟩
  | .enum vs, req, dv, ref, f, _, hp => by
      simp only [parseField, Except.ok.injEq, Option.some.injEq] at hp
      exact ⟨by rw [← hp]; rfl, .inl (by rw [← hp]; rfl)⟩
  | .nativeEnum vs, req, dv, ref, f, _, hp => by
      simp only [parseField, Except.ok.injEq, Option.some.injEq] at hp
      exact ⟨by rw [← hp]; rfl, .inl (by rw [← hp]; rfl)⟩
  | .boolean, req, dv, ref, f, _, hp => by
      simp only [parseField, Except.ok.injEq, Option.some.injEq] at hp
      exact ⟨by rw [← hp]; rfl, .inl (by rw [← hp]; rfl)⟩
  | .date u s, req, dv, ref, f, _, hp => by
      simp only [parseField, Except.ok.injEq, Option.some.injEq] at hp
      exact ⟨by rw [← hp]; rfl, .inl (by rw [← hp]; rfl)⟩
  | .array el, req, dv, ref, f, _, hp => by
      simp only [parseField] at hp
      rcases ha : parseArray req el (some dv) with e | m <;>
        simp only [ha, Bind.bind, Except.bind, Pure.pure, Except.pure,
          Except.ok.injEq, Option.some.injEq, reduceCtorEq] at hp
      obtain ⟨inner, _, hm⟩ := parseArray_ok req el (some dv) m ha
      exact ⟨by rw [← hp, hm]; rfl, .inl (by rw [← hp, hm]; rfl)⟩
  | .any, req, dv, ref, f, _, hp => by
      simp only [parseField, Except.ok.injEq, Option.some.injEq] at hp
      exact ⟨by rw [← hp]; rfl, .inl (by rw [← hp]; rfl)⟩
  | .map k v, req, dv, ref, f, _, hp => by
      simp only [parseField] at hp
      rcases hm : parseMap req v (some dv) with e | m <;>
        simp only [hm, Bind.bind, Except.bind, Pure.pure, Except.pure,
          Except.ok.injEq, Option.some.injEq, reduceCtorEq] at hp
      obtain ⟨p, _, hmm⟩ := parseMap_ok req v (some dv) m hm
      exact ⟨by rw [← hp, hmm]; rfl, .inl (by rw [← hp, hmm]; rfl)⟩
  | .record k v, req, dv, ref, f, _, hp => by
      simp only [parseField] at hp
      rcases hm : parseMap req v (some dv) with e | m <;>
        simp only [hm, Bind.bind, Except.bind, Pure.pure, Except.pure,
          Except.ok.injEq, Option.some.injEq, reduceCtorEq] at hp
      obtain ⟨p, _, hmm⟩ := parseMap_ok req v (some dv) m hm
      exact ⟨by rw [← hp, hmm]; rfl, .inl (by rw [← hp, hmm]; rfl)⟩
  | .nullable inner, req, dv, ref, f, hs, hp => by
      simp only [parseField] at hp
      obtain ⟨h1, h2⟩ := defaultVal_propagates inner false dv none f
        (by simpa [acceptsDefault] using hs) hp
      exact ⟨h1, .inr (h2.elim id id)⟩
  | .effect e sc, req, dv, ref, f, hs, hp => by
      cases e with
      | refinement val =>
          simp only [parseField] at hp
          exact defaultVal_propagates sc req dv val f
            (by simpa [acceptsDefault] using hs) hp
      | preprocess =>
          simp only [parseField] at hp
          exact defaultVal_propagates sc req dv ref f
            (by simpa [acceptsDefault] using hs) hp
      | transform =>
          simp only [parseField] at hp
          exact defaultVal_propagates sc req dv ref f
            (by simpa [acceptsDefault] using hs) hp
  | .objectId r rp u s, req, dv, ref, f, hs, hp => by
      simp [acceptsDefault] at hs
  | .uuid r rp u s, req, dv, ref, f, hs, hp => by
      simp [acceptsDefault] at hs
  | .object shape, req, dv, ref, f, hs, hp => by
      simp [acceptsDefault] at hs
  | .zdefault inner dv0, req, dv, ref, f, hs, hp => by
      simp [acceptsDefault] at hs
  | .optional inner, req, dv, ref, f, hs, hp => by
      simp [acceptsDefault] at hs
  | .union fo os, req, dv, ref, f, hs, hp => by
      simp [acceptsDefault] at hs
  | .unsupported c, req, dv, ref, f, hs, hp => by
      simp [acceptsDefault] at hs

/-- A successful run of the parseObject entry loop emits exactly the
declared keys, in declaration order. -/
theorem parseObjectEntries_keys :
    ∀ (shape : List (String × ZField)) (l : List (String × MField)),
      parseObjectEntries shape = .ok l →
      List.map Prod.fst l = List.map Prod.fst shape := by
  intro shape
  induction shape with
  | nil =>
      intro l h
      simp [parseObjectEntries] at h
      rw [h]
      rfl
  | cons p rest ih =>
      obtain ⟨key, field⟩ := p
      intro l h
      rw [parseObjectEntries_cons] at h
      rcases hv : parseEntryValue field with e | v <;> rw [hv] at h <;>
        simp [Except.bind] at h
      rcases ht : parseObjectEntries rest with e2 | tail <;> rw [ht] at h <;>
        simp [Except.bind, Pure.pure, Except.pure] at h
      rw [← h]
      simp [ih tail ht]

/-- When every entry before it succeeds, an entry of the catch-all kind
makes the whole entry loop abort with the unsupported-field error built
from the node's constructor tag. -/
theorem parseObjectEntries_unsupported :
    ∀ (pre : List (String × ZField)) (key c : String)
      (rest : List (String × ZField)),
      (∀ p ∈ pre, ∃ v, parseEntryValue p.2 = Except.ok v) →
      parseObjectEntries (pre ++ (key, ZField.unsupported c) :: rest)
        = .error ("Unsupported field type: " ++ c) := by
  intro pre
  induction pre with
  | nil =>
      intro key c rest _
      rw [List.nil_append, parseObjectEntries_cons]
      have hval : parseEntryValue (.unsupported c)
          = .error ("Unsupported field type: " ++ c) := by
        simp [parseEntryValue, parseField, Bind.bind, Except.bind, ctorName]
      rw [hval]
      rfl
  | cons p pre ih =>
      intro key c rest hpre
      obtain ⟨k0, f0⟩ := p
      rw [List.cons_append, parseObjectEntries_cons]
      obtain ⟨v, hv⟩ := hpre (k0, f0) (by simp)
      rw [hv, ih key c rest (fun q hq => hpre q (by simp [hq]))]
      rfl

end Lemmas

section Claims

/-- Claim C1: for every object schema, a successful translation
(parseObject with required true) produces the bare output mapping whose
key list is exactly the schema's declared field names, in declaration
order: every declared child appears under its own name and no other
keys are present. -/
theorem translateObject_key_coverage (shape : List (String × ZField))
    (r : MField) (h : parseObject shape true = .ok r) :
    ∃ fields, r = .mSchema fields ∧
      List.map Prod.fst fields = List.map Prod.fst shape := by
  obtain ⟨l, hl, he⟩ := parseObject_true_ok shape r h
  exact ⟨l, hl, parseObjectEntries_keys shape l he⟩

/-- Witness for C1 at a concrete two-field schema. -/
theorem translateObject_key_coverage_witness :
    ∃ fields,
      MField.mSchema
          [("name", MField.mString true none none none false false none none),
            ("age", MField.mNumber true none none none false false none)]
        = .mSchema fields ∧
      List.map Prod.fst fields =
        List.map Prod.fst
          [("name", ZField.string none none none none),
            ("age", ZField.number none none none none)] :=
  translateObject_key_coverage
    [("name", .string none none none none), ("age", .number none none none none)]
    (.mSchema [("name", .mString true none none none false false none none),
      ("age", .mNumber true none none none false false none)])
    (by
      have h : parseObjectEntries
          [("name", ZField.string none none none none),
            ("age", ZField.number none none none none)]
        = .ok [("name", .mString true none none none false false none none),
            ("age", .mNumber true none none none false false none)] := by
        simp only [parseObjectEntries, parseField, parseString, parseNumber,
          Option.getD, Bind.bind, Except.bind, Pure.pure, Except.pure,
          reduceCtorEq]
      rw [parseObject_eq, h]
      rfl)

/-- Counterexample to claim C2 as stated: translating an object with the
single catch-all field named bad fails with a message built from the
node's constructor tag alone; the offending field's name does not occur
anywhere in the message (strOccurs over the message's character data is
false), so the error does not identify the field name. -/
theorem translateObject_error_counterexample :
    parseObject [("bad", ZField.unsupported "ZodBigInt")] true
        = .error "Unsupported field type: ZodBigInt" ∧
      strOccurs "bad" "Unsupported field type: ZodBigInt".data = false := by
  constructor
  · have h : parseObjectEntries [("bad", ZField.unsupported "ZodBigInt")]
        = .error "Unsupported field type: ZodBigInt" := by
      simp only [parseObjectEntries, parseField, ctorName, Option.getD,
        Bind.bind, Except.bind, Pure.pure, Except.pure, reduceCtorEq]
      rfl
    rw [parseObject_eq, h]
    rfl
  · decide

/-- Claim C2 (amended): for every object schema containing a child of
the catch-all kind whose earlier siblings all translate successfully,
the whole translation fails synchronously with an error and no partial
output is returned; the error identifies the offending node's runtime
constructor tag, but not the offending field's name. -/
theorem translateObject_unsupported_fails (pre : List (String × ZField))
    (key c : String) (rest : List (String × ZField))
    (hpre : ∀ p ∈ pre, ∃ v, parseEntryValue p.2 = Except.ok v) :
    parseObject (pre ++ (key, ZField.unsupported c) :: rest) true
      = .error ("Unsupported field type: " ++ c) := by
  rw [parseObject_eq, parseObjectEntries_unsupported pre key c rest hpre]
  rfl

/-- Witness for amended C2: a valid boolean field followed by an
unsupported one. -/
theorem translateObject_unsupported_fails_witness :
    parseObject [("a", ZField.boolean), ("bad", ZField.unsupported "ZodBigInt")]
        true
      = .error ("Unsupported field type: " ++ "ZodBigInt") :=
  translateObject_unsupported_fails [("a", .boolean)] "bad" "ZodBigInt" []
    (by
      intro p hp
      simp only [List.mem_singleton] at hp
      subst hp
      exact ⟨.mBoolean true none,
        by simp only [parseEntryValue, parseField, parseBoolean,
          Bind.bind, Except.bind, Pure.pure, Except.pure, reduceCtorEq]⟩)

/-- Counterexample to claim C3 as stated: wrapping a union node in an
optional modifier does not yield required false; the union branch
restarts the dispatch with required true, so the translated descriptor
of optional of union of boolean has required true. -/
theorem optional_union_required_counterexample :
    parseField (.optional (.union .boolean [.boolean])) true none none
        = .ok (some (.mBoolean true none)) ∧
      (MField.mBoolean true none).requiredFlag = some true := by
  exact ⟨by simp [parseField, parseBoolean], rfl⟩

/-- Claim C3 (amended): for every node N whose dispatch spine contains
no union, wrapping N in an optional or nullable modifier yields a
descriptor with required false regardless of the required context passed
in, and wrapping further in a has-default modifier forwards the context
unchanged, so it never turns required false back into required true; a
union on the spine instead discards the context and restores required
true (see C7). -/
theorem optional_nullable_relax_required (N : ZField) (req : Bool)
    (d : Option MValue) (ref : Option EffectValidator)
    (hs : noUnionSpine N = true) :
    (∀ f, parseField (.optional N) req d ref = .ok (some f) →
      f.requiredFlag = some false) ∧
    (∀ f, parseField (.nullable N) req d ref = .ok (some f) →
      f.requiredFlag = some false) ∧
    (∀ dv f, parseField (.zdefault (.optional N) dv) req d ref = .ok (some f) →
      f.requiredFlag = some false) ∧
    (∀ dv f, parseField (.zdefault (.nullable N) dv) req d ref = .ok (some f) →
      f.requiredFlag = some false) := by
  refine ⟨?_, ?_, ?_, ?_⟩
  · intro f hp
    simp only [parseField] at hp
    exact requiredFlag_false N none none f hs hp
  · intro f hp
    cases d with
    | none =>
        simp only [parseField] at hp
        exact requiredFlag_false N (some .vnull) none f hs hp
    | some v =>
        simp only [parseField] at hp
        exact requiredFlag_false N (some v) none f hs hp
  · intro dv f hp
    simp only [parseField] at hp
    exact requiredFlag_false N none none f hs hp
  · intro dv f hp
    simp only [parseField] at hp
    exact requiredFlag_false N (some dv) none f hs hp

/-- Witness for amended C3 applied to a boolean node in required
context. -/
theorem optional_nullable_relax_required_witness :
    (MField.mBoolean false none).requiredFlag = some false :=
  (optional_nullable_relax_required .boolean true none none rfl).1
    (.mBoolean false none) (by simp [parseField, parseBoolean])

/-- Counterexample to claim C4 as stated: a nested-object child in
required position is emitted as the bare mapping, which carries no
required member at all (its required flag is absent, not an explicit
true). -/
theorem nested_object_no_required_flag :
    parseObject
        [("address", ZField.object [("street", ZField.string none none none none)])]
        true
      = .ok (.mSchema [("address",
          .mSchema [("street", .mString true none none none false false none none)])]) ∧
      (MField.mSchema [("street", .mString true none none none false false none none)]).requiredFlag
        = none := by
  constructor
  · have h1 : parseObjectEntries [("street", ZField.string none none none none)]
        = .ok [("street", .mString true none none none false false none none)] := by
      simp only [parseObjectEntries, parseField, parseString, Option.getD,
        Bind.bind, Except.bind, Pure.pure, Except.pure, reduceCtorEq]
    have h2 : parseObject [("street", ZField.string none none none none)] true
        = .ok (.mSchema [("street", .mString true none none none false false none none)]) := by
      rw [parseObject_eq, h1]
      rfl
    have h3 : parseObjectEntries
        [("address", ZField.object [("street", ZField.string none none none none)])]
      = .ok [("address",
          .mSchema [("street", .mString true none none none false false none none)])] := by
      simp only [parseObjectEntries, h2, Bind.bind, Except.bind, Pure.pure,
        Except.pure]
    rw [parseObject_eq, h3]
    rfl
  · rfl

/-- Claim C4 (amended): every descriptor the translation produces
carries an explicit required flag except the bare mapping emitted for a
required nested object; and along a spine with no optional, nullable or
union wrapper, a node translated in required context keeps required
true (explicitly, or by being the bare required-object mapping). -/
theorem required_flag_explicit_amended :
    (∀ (N : ZField) (req : Bool) (d : Option MValue)
        (ref : Option EffectValidator) (f : MField),
      parseField N req d ref = Except.ok (some f) →
      (∃ b, f.requiredFlag = some b) ∨ ∃ sub, f = .mSchema sub) ∧
    (∀ (N : ZField) (d : Option MValue) (ref : Option EffectValidator)
        (f : MField),
      plainSpine N = true → parseField N true d ref = Except.ok (some f) →
      f.requiredFlag = some true ∨ ∃ sub, f = .mSchema sub) :=
  ⟨requiredFlag_explicit, requiredFlag_plain⟩

/-- Witness for amended C4 at a boolean node. -/
theorem required_flag_explicit_amended_witness :
    ((∃ b, (MField.mBoolean true none).requiredFlag = some b) ∨
        ∃ sub, MField.mBoolean true none = .mSchema sub) ∧
      ((MField.mBoolean true none).requiredFlag = some true ∨
        ∃ sub, MField.mBoolean true none = .mSchema sub) :=
  ⟨required_flag_explicit_amended.1 .boolean true none none (.mBoolean true none)
      (by simp [parseField, parseBoolean]),
    required_flag_explicit_amended.2 .boolean none none (.mBoolean true none)
      rfl (by simp [parseField, parseBoolean])⟩

/-- Counterexample to claim C5 as stated: for an identifier inner node,
translating optional of has-default loses the producer entirely: the
identifier builder is not given the pending default, and the resulting
descriptor has no default member at all. -/
theorem optional_default_objectId_counterexample :
    parseField
        (.optional (.zdefault (.objectId none none none none) (.vint 5)))
        true none none
      = .ok (some (.mObjectId false false false none none)) ∧
      (MField.mObjectId false false false none none).defaultVal = none := by
  constructor
  · simp [parseField, parseObjectId, jsStr]
  · rfl

/-- Claim C5 (amended): for every inner node N on a default-accepting
spine (number, string, enum, native enum, boolean, date, array, any or
map/record kinds, possibly under nullable or effect wrappers) and every
default producer dv, translating optional of has-default of N with dv
yields a descriptor whose default equals dv and whose required flag is
false; identifier, object and union inner nodes, or a further optional
wrapper, instead drop the producer. -/
theorem optional_default_propagation (N : ZField) (dv : MValue) (req : Bool)
    (d : Option MValue) (ref : Option EffectValidator) (f : MField)
    (hs : acceptsDefault N = true)
    (hp : parseField (.optional (.zdefault N dv)) req d ref = .ok (some f)) :
    f.defaultVal = some (some dv) ∧ f.requiredFlag = some false := by
  simp only [parseField] at hp
  obtain ⟨h1, h2⟩ := defaultVal_propagates N false dv none f hs hp
  exact ⟨h1, h2.elim id id⟩

/-- Witness for amended C5 at a boolean node with the falsy default 0. -/
theorem optional_default_propagation_witness :
    (MField.mBoolean false (some (.vint 0))).defaultVal = some (some (.vint 0)) ∧
      (MField.mBoolean false (some (.vint 0))).requiredFlag = some false :=
  optional_default_propagation .boolean (.vint 0) true none none
    (.mBoolean false (some (.vint 0))) rfl
    (by simp [parseField, parseBoolean])

/-- Claim C6: translating a nullable-wrapped node unwraps one level,
forces the required context to false, and re-dispatches with the pending
default set to the null producer only when no default was already
supplied; an already-collected default (including falsy values) is
forwarded unchanged.  On a default-accepting spine the resulting
descriptor accordingly carries required false and exactly that
default. -/
theorem nullable_unwrap (N : ZField) (req : Bool) (d : Option MValue)
    (ref : Option EffectValidator) :
    parseField (.nullable N) req d ref
        = parseField N false (some (d.getD .vnull)) none ∧
      (∀ f, acceptsDefault N = true →
        parseField (.nullable N) req d ref = .ok (some f) →
        f.requiredFlag = some false ∧ f.defaultVal = some (some (d.getD .vnull))) := by
  constructor
  · cases d <;> simp [parseField, Option.getD]
  · intro f hacc hp
    cases d with
    | none =>
        simp only [parseField] at hp
        obtain ⟨h1, h2⟩ := defaultVal_propagates N false .vnull none f hacc hp
        exact ⟨h2.elim id id, by simpa using h1⟩
    | some v =>
        simp only [parseField] at hp
        obtain ⟨h1, h2⟩ := defaultVal_propagates N false v none f hacc hp
        exact ⟨h2.elim id id, by simpa using h1⟩

/-- Witness for C6 at a boolean node with the falsy default 0 already
collected: the null producer is not injected and 0 is forwarded. -/
theorem nullable_unwrap_witness :
    parseField (.nullable .boolean) true (some (.vint 0)) none
        = parseField .boolean false (some (.vint 0)) none ∧
      ((MField.mBoolean false (some (.vint 0))).requiredFlag = some false ∧
        (MField.mBoolean false (some (.vint 0))).defaultVal = some (some (.vint 0))) :=
  ⟨(nullable_unwrap .boolean true (some (.vint 0)) none).1,
    (nullable_unwrap .boolean true (some (.vint 0)) none).2
      (.mBoolean false (some (.vint 0))) rfl
      (by simp [parseField, parseBoolean])⟩

/-- Claim C7: translating a union re-dispatches on the first listed
alternative only, discarding the other alternatives, and the
accumulated required, default and validator context is not forwarded:
the first alternative is translated as if fresh (required true, no
pending default, no pending validator).  The concrete instance shows a
unique-annotated string first alternative winning over a number second
alternative while the incoming context (required false, pending
default) is discarded. -/
theorem union_first_alternative :
    (∀ (first : ZField) (rest : List ZField) (req : Bool) (d : Option MValue)
        (ref : Option EffectValidator),
      parseField (.union first rest) req d ref = parseField first true none none) ∧
      parseField
          (.union (.string none none (some true) none)
            [.number none none none none]) false (some (.vint 3)) none
        = .ok (some (.mString true none none none true false none none)) := by
  constructor
  · intro first rest req d ref
    simp [parseField]
  · simp [parseField, parseString]

/-- Claim C8: evaluation of the translation at the failing input, a
UUID identifier node with target collection Company and unique true
whose sparse attribute was never set: the uuid branch of parseField
copies the node's unique attribute into the sparse argument
(src/index.ts line 126), so the descriptor comes out with sparse true
where the claim requires the default sparse false.  The general
equation shows sparse always mirrors unique for UUID nodes and the
node's own sparse attribute is ignored. -/
theorem uuid_sparse_copies_unique :
    (∀ (r rp : Option String) (u s : Option Bool) (req : Bool)
        (d : Option MValue) (rf : Option EffectValidator),
      parseField (.uuid r rp u s) req d rf
        = .ok (some (.mUUID req (u.getD false) (u.getD false)
            (jsStr r) (jsStr rp)))) ∧
      parseField (.uuid (some "Company") none (some true) none) true none none
        = .ok (some (.mUUID true true true (some "Company") none)) := by
  constructor
  · intro r rp u s req d rf
    simp [parseField, parseUUID]
  · simp [parseField, parseUUID, jsStr]

/-- Claim C9: translating a map node translates only the value schema,
which is translated fully recursively and in a fresh context; the
result wraps that descriptor as the map's of member, and is the same
whatever the key schema is. -/
theorem map_value_only (k1 k2 v : ZField) (req : Bool) (d : Option MValue)
    (ref : Option EffectValidator) :
    parseField (.map k1 v) req d ref = parseField (.map k2 v) req d ref ∧
    (∀ f, parseField v true none none = .ok (some f) →
      parseField (.map k1 v) req d ref = .ok (some (.mMap req d f))) := by
  constructor
  · simp [parseField]
  · intro f hf
    have hm : parseMap req v d = .ok (.mMap req d f) := by
      simp only [parseMap, hf, Bind.bind, Except.bind]
      rfl
    simp only [parseField, hm, Bind.bind, Except.bind]
    rfl

/-- Witness for C9: a map with boolean keys and a nested-object value
schema yields the fully translated nested-object mapping as its of
member. -/
theorem map_value_only_witness :
    parseField (.map .boolean (.object [("b", .boolean)])) true none none
      = .ok (some (.mMap true none (.mSchema [("b", .mBoolean true none)]))) :=
  (map_value_only .boolean .any (.object [("b", .boolean)]) true none none).2
    (.mSchema [("b", .mBoolean true none)])
    (by
      have h1 : parseObjectEntries [("b", ZField.boolean)]
          = .ok [("b", .mBoolean true none)] := by
        simp only [parseObjectEntries, parseField, parseBoolean,
          Bind.bind, Except.bind, Pure.pure, Except.pure, reduceCtorEq]
      have h2 : parseObject [("b", ZField.boolean)] true
          = .ok (.mSchema [("b", .mBoolean true none)]) := by
        rw [parseObject_eq, h1]
        rfl
      simp only [parseField, h2, Bind.bind, Except.bind, Pure.pure, Except.pure])

/-- Claim C10: a refinement validator wrapped around a boolean node is
silently dropped: the boolean builder is not handed the pending
validator and its output carries no validate member, while the same
wrapper around a number, string or date node surfaces the validator;
translation of the wrapped boolean still succeeds. -/
theorem boolean_drops_validator (val : EffectValidator) (req : Bool)
    (d : Option MValue) (rf : Option EffectValidator) :
    parseField (.effect (.refinement (some val)) .boolean) req d rf
        = .ok (some (.mBoolean req d)) ∧
      (MField.mBoolean req d).validateVal = none ∧
      parseField (.effect (.refinement (some val)) (.number none none none none))
          req d rf
        = .ok (some (.mNumber req d none none false false (some val))) ∧
      parseField (.effect (.refinement (some val)) (.string none none none none))
          req d rf
        = .ok (some (.mString req d none none false false none (some val))) ∧
      parseField (.effect (.refinement (some val)) (.date none none)) req d rf
        = .ok (some (.mDate req d false false (some val))) := by
  refine ⟨?_, rfl, ?_, ?_, ?_⟩ <;>
    simp [parseField, parseBoolean, parseNumber, parseString, parseDate]

end Claims

end ZodMongoose
